import Mathlib

/-!
# Verification of the `bytestat` streaming randomness engine

Shallow embedding of `src/lib.rs` (crate `bytestat`).  The Rust struct
`Bytestat` owns a `u128` sample counter, a 256-entry frequency table
(`dist`), a 65536-entry interval histogram (`interval`), a 256-entry
last-seen table (`last`) and a memoized score snapshot.  We model the
wide `u128` counters as `Nat` (the code's contract is that they never
overflow), byte values as `Fin 256`, and the `f64` scores as `ℚ`.

All divisions performed by the code are modelled with rational
division; the `f64` results the code produces for the concrete streams
examined below are exact dyadic rationals, so the `ℚ` model agrees
with the floating-point values bit for bit there.  Rational division
by zero yields `0` in Lean; the code's own memoization guard makes the
corresponding `0.0/0.0` float division unreachable, which is proved
below (`C2_total_accessors`).
-/

/-- State of the Rust `Bytestat` struct (src/lib.rs lines 9-21).
`dist`/`last` are indexed by byte value, `interval` by gap length
(the Rust array has 256*256 = 65536 entries; all indices ever written
or read are `< 65536`). -/
structure Bytestat where
  counter : Nat
  dist : Fin 256 → Nat
  interval : Nat → Nat
  last : Fin 256 → Nat
  score_counter : Nat
  score_non_zero : ℚ
  score_unique : ℚ
  score_amplitude : ℚ
  score_interval_continuity : ℚ
  score_interval_amplitude : ℚ
  score : ℚ

namespace Bytestat

/-- Rust `Bytestat::new` (src/lib.rs lines 32-46): everything zero-initialized. -/
def new : Bytestat where
  counter := 0
  dist := fun _ => 0
  interval := fun _ => 0
  last := fun _ => 0
  score_counter := 0
  score_non_zero := 0
  score_unique := 0
  score_amplitude := 0
  score_interval_continuity := 0
  score_interval_amplitude := 0
  score := 0

/-- Rust `Bytestat::analyze` (src/lib.rs lines 67-72).  The counter is
incremented first; the gap stored into the histogram is
`(counter - last[value]) as u16`, i.e. the difference modulo 65536. -/
def analyze (s : Bytestat) (value : Fin 256) : Bytestat :=
  let counter := s.counter + 1
  let gap := (counter - s.last value) % 65536
  { s with
    counter := counter
    dist := Function.update s.dist value (s.dist value + 1)
    interval := Function.update s.interval gap (s.interval gap + 1)
    last := Function.update s.last value counter }

/-- Feed a list of bytes to a fresh engine, in order. -/
def runAnalyze (l : List (Fin 256)) : Bytestat :=
  l.foldl analyze new

/-- The `dist_not_zero` count of `update_scores` "1 of 5"
(src/lib.rs lines 80-85): number of byte values with nonzero count. -/
def distNotZero (s : Bytestat) : Nat :=
  (Finset.univ.filter (fun b : Fin 256 => 0 < s.dist b)).card

/-- The `dist_unique` count of `update_scores` "2 of 5"
(src/lib.rs lines 89-101): the code builds a HashMap from occurrence
count to the number of byte values sharing that count, then counts the
map values equal to 1, i.e. the occurrence counts attained by exactly
one byte value. -/
def distUnique (s : Bytestat) : Nat :=
  ((Finset.univ.image (fun b : Fin 256 => s.dist b)).filter
    (fun v => (Finset.univ.filter (fun b : Fin 256 => s.dist b = v)).card = 1)).card

/-- The `dist_amp_min` of `update_scores` "3 of 5" (src/lib.rs lines
105-114): minimum over all 256 frequency entries (the fold starts from
`u128::MAX` and scans every entry, so it is the true minimum). -/
def distAmpMin (s : Bytestat) : Nat :=
  Finset.univ.inf' Finset.univ_nonempty (fun b : Fin 256 => s.dist b)

/-- The `dist_amp_max` of `update_scores` "3 of 5": maximum over all
256 frequency entries (fold from `u128::MIN = 0`). -/
def distAmpMax (s : Bytestat) : Nat :=
  Finset.univ.sup (fun b : Fin 256 => s.dist b)

/-- The interval min/max loop of `update_scores` "4 of 5" (src/lib.rs
lines 119-131): scan gap lengths `1..65536`, keeping the smallest and
largest whose histogram count strictly exceeds `counter / 4096`
(truncating division).  Accumulator starts at
`(u16::MAX, u16::MIN) = (65535, 0)`. -/
def intervalLoop (s : Bytestat) : Nat × Nat :=
  (List.range' 1 65535).foldl
    (fun mm x =>
      if s.counter / 4096 < s.interval x then
        (if x < mm.1 then x else mm.1, if mm.2 < x then x else mm.2)
      else mm)
    (65535, 0)

/-- The `populated` loop of `update_scores` (src/lib.rs lines 133-138):
starting from 1, add 1 for every gap length in `1..imax` (exclusive
upper bound, as in the Rust `for x in 1..interval_max`) whose count
strictly exceeds `counter / 4096`. -/
def populatedLoop (s : Bytestat) (imax : Nat) : Nat :=
  (List.range' 1 (imax - 1)).foldl
    (fun p x => if s.counter / 4096 < s.interval x then p + 1 else p) 1

/-- The `score_non_zero` as recomputed by `update_scores` (line 86). -/
def computeNonZero (s : Bytestat) : ℚ :=
  (distNotZero s : ℚ) / 256

/-- The `score_unique` as recomputed by `update_scores` (line 102). -/
def computeUnique (s : Bytestat) : ℚ :=
  (distUnique s : ℚ) / 256

/-- The `score_amplitude` as recomputed by `update_scores` (lines 115-116):
`(max - (max - min)) / max`.  Subtraction is on the wide unsigned
counters (here `Nat`); the division is `f64`, modelled on `ℚ`. -/
def computeAmplitude (s : Bytestat) : ℚ :=
  ((distAmpMax s - (distAmpMax s - distAmpMin s) : Nat) : ℚ) / (distAmpMax s : ℚ)

/-- The `score_interval_continuity` as recomputed by `update_scores`
(line 139): `min(populated, 512) / 512`, written with the literal
conditional of the source. -/
def computeContinuity (s : Bytestat) : ℚ :=
  ((if populatedLoop s (intervalLoop s).2 < 512
    then populatedLoop s (intervalLoop s).2 else 512 : Nat) : ℚ) / 512

/-- The `score_interval_amplitude` as recomputed by `update_scores`
(lines 142-145): cap `interval_max` at 512, then divide by 512. -/
def computeIntervalAmplitude (s : Bytestat) : ℚ :=
  ((if 512 < (intervalLoop s).2 then 512 else (intervalLoop s).2 : Nat) : ℚ) / 512

/-- The composite `score` as recomputed by `update_scores`
(lines 148-152): each sub-score times 20, summed. -/
def computeScore (s : Bytestat) : ℚ :=
  computeNonZero s * 20 + computeUnique s * 20 + computeAmplitude s * 20
    + computeContinuity s * 20 + computeIntervalAmplitude s * 20

/-- Rust `Bytestat::update_scores` (src/lib.rs lines 74-156): early return
when the snapshot counter matches the live counter, otherwise
recompute all six scores and stamp the snapshot with the counter. -/
def update_scores (s : Bytestat) : Bytestat :=
  if s.score_counter = s.counter then s
  else
    { s with
      score_non_zero := computeNonZero s
      score_unique := computeUnique s
      score_amplitude := computeAmplitude s
      score_interval_continuity := computeContinuity s
      score_interval_amplitude := computeIntervalAmplitude s
      score := computeScore s
      score_counter := s.counter }

/-- Value returned by `Bytestat::get_score_non_zero` (lines 175-178). -/
def get_score_non_zero (s : Bytestat) : ℚ :=
  (update_scores s).score_non_zero

/-- Value returned by `Bytestat::get_score_unique` (lines 198-201). -/
def get_score_unique (s : Bytestat) : ℚ :=
  (update_scores s).score_unique

/-- Value returned by `Bytestat::get_score_amplitude` (lines 222-225). -/
def get_score_amplitude (s : Bytestat) : ℚ :=
  (update_scores s).score_amplitude

/-- Value returned by `Bytestat::get_score_interval_continuity`
(lines 246-249). -/
def get_score_interval_continuity (s : Bytestat) : ℚ :=
  (update_scores s).score_interval_continuity

/-- Value returned by `Bytestat::get_score_interval_amplitude`
(lines 269-272). -/
def get_score_interval_amplitude (s : Bytestat) : ℚ :=
  (update_scores s).score_interval_amplitude

/-- Value returned by `Bytestat::get_score` (lines 290-293). -/
def get_score (s : Bytestat) : ℚ :=
  (update_scores s).score

/-- Values returned by `Bytestat::get_scores_array` (lines 295-304),
in the fixed order of the source. -/
def get_scores_array (s : Bytestat) : List ℚ :=
  [get_score_non_zero s, get_score_unique s, get_score_amplitude s,
   get_score_interval_continuity s, get_score_interval_amplitude s, get_score s]

/-- A public operation of the engine: ingest one byte, or query any
accessor (all accessors perform the same state transition
`update_scores`). -/
inductive Op where
  | ingest : Fin 256 → Op
  | query : Op

/-- State transition of one public operation. -/
def applyOp (s : Bytestat) : Op → Bytestat
  | Op.ingest b => analyze s b
  | Op.query => update_scores s

/-- State after a sequence of public operations on a fresh engine;
exactly the reachable states of the engine. -/
def runOps (ops : List Op) : Bytestat :=
  ops.foldl applyOp new

/-- The snapshot is fresh iff its stored counter equals the live
counter (spec §3, Score Snapshot invariant). -/
def Fresh (s : Bytestat) : Prop :=
  s.score_counter = s.counter

/-! ## Reference definitions taken from the spec's words (§4.1, steps 4-5)

These are the spec's description of the interval scores, written with
`Finset`, to be compared against the loop-based code above (claim C4). -/

/-- Modelled from the spec: the set of significant gap lengths — gap
lengths `1..65535` whose histogram count exceeds `Sample Counter / 4096`
under truncating integer division. -/
def sigSet (s : Bytestat) : Finset Nat :=
  (Finset.Ico 1 65536).filter (fun x => s.counter / 4096 < s.interval x)

/-- Modelled from the spec: `interval_max`, the largest significant gap
length (0 when no gap length is significant). -/
def specIntervalMax (s : Bytestat) : Nat :=
  (sigSet s).sup id

/-- Modelled from the spec: `populated`, 1 (for the boundary) plus the
number of significant gap lengths in `1..interval_max` (upper bound
exclusive). -/
def specPopulated (s : Bytestat) : Nat :=
  1 + ((Finset.Ico 1 (specIntervalMax s)).filter
    (fun x => s.counter / 4096 < s.interval x)).card

/-! ## Loop / set correspondence -/

lemma if_lt_max (a b : Nat) : (if a < b then b else a) = max a b := by
  split <;> omega

/-- The second component of the paired min/max fold is the max-only
fold: the max accumulator never depends on the min accumulator. -/
lemma pairFold_snd (P : Nat → Prop) [DecidablePred P] (L : List Nat) :
    ∀ m1 m2 : Nat,
      (L.foldl (fun mm x => if P x then
          ((if x < mm.1 then x else mm.1), (if mm.2 < x then x else mm.2)) else mm)
        (m1, m2)).2
        = L.foldl (fun m x => if P x then (if m < x then x else m) else m) m2 := by
  induction L with
  | nil => intro m1 m2; rfl
  | cons a t ih =>
    intro m1 m2
    simp only [List.foldl_cons]
    by_cases h : P a
    · simp only [if_pos h]; exact ih _ _
    · simp only [if_neg h]; exact ih _ _

/-- A fold keeping the largest element satisfying `P` computes the sup
of the filtered range, joined with the initial accumulator. -/
lemma maxFold_eq (P : Nat → Prop) [DecidablePred P] :
    ∀ n start m : Nat,
      (List.range' start n).foldl
          (fun acc x => if P x then (if acc < x then x else acc) else acc) m
        = max m (((Finset.Ico start (start + n)).filter (fun x => P x)).sup id) := by
  intro n
  induction n with
  | zero => intro start m; simp
  | succ k ih =>
    intro start m
    rw [List.range'_succ]
    simp only [List.foldl_cons]
    rw [ih (start + 1)]
    have e : start + 1 + k = start + (k + 1) := by omega
    rw [e]
    have hlt : start < start + (k + 1) := by omega
    rw [← Nat.Ico_insert_succ_left hlt, Finset.filter_insert]
    by_cases h : P start
    · simp only [if_pos h, Finset.sup_insert, id_eq, if_lt_max]
      rw [sup_eq_max, Nat.max_assoc]
    · simp only [if_neg h]

/-- A fold counting the elements satisfying `P` computes the cardinal
of the filtered range, added to the initial accumulator. -/
lemma countFold_eq (P : Nat → Prop) [DecidablePred P] :
    ∀ n start c : Nat,
      (List.range' start n).foldl (fun p x => if P x then p + 1 else p) c
        = c + ((Finset.Ico start (start + n)).filter (fun x => P x)).card := by
  intro n
  induction n with
  | zero => intro start c; simp
  | succ k ih =>
    intro start c
    rw [List.range'_succ]
    simp only [List.foldl_cons]
    rw [ih (start + 1)]
    have e : start + 1 + k = start + (k + 1) := by omega
    rw [e]
    have hlt : start < start + (k + 1) := by omega
    rw [← Nat.Ico_insert_succ_left hlt, Finset.filter_insert]
    have hnm : start ∉ (Finset.Ico (start + 1) (start + (k + 1))).filter (fun x => P x) := by
      intro hmem
      have := (Finset.mem_filter.mp hmem).1
      have := (Finset.mem_Ico.mp this).1
      omega
    by_cases h : P start
    · simp only [if_pos h, Finset.card_insert_of_not_mem hnm]
      omega
    · simp only [if_neg h]

/-- The Rust interval max loop agrees with the spec's "largest
significant gap length". -/
lemma intervalLoop_snd (s : Bytestat) : (intervalLoop s).2 = specIntervalMax s := by
  unfold intervalLoop specIntervalMax sigSet
  rw [pairFold_snd, maxFold_eq]
  norm_num

/-- The Rust `populated` loop agrees with the spec's
"1 + number of significant gap lengths in `1..interval_max`". -/
lemma populatedLoop_eq (s : Bytestat) (imax : Nat) :
    populatedLoop s imax
      = 1 + ((Finset.Ico 1 imax).filter
          (fun x => s.counter / 4096 < s.interval x)).card := by
  unfold populatedLoop
  rw [countFold_eq]
  have e : Finset.Ico 1 (1 + (imax - 1)) = Finset.Ico 1 imax := by
    ext x
    simp only [Finset.mem_Ico]
    omega
  rw [e]

/-- The `populated` value actually used by `update_scores` is exactly
the spec's `populated`. -/
lemma populatedLoop_spec (s : Bytestat) :
    populatedLoop s (intervalLoop s).2 = specPopulated s := by
  rw [intervalLoop_snd, populatedLoop_eq, specPopulated]

/-! ## Basic state lemmas -/

lemma update_scores_counter (s : Bytestat) : (update_scores s).counter = s.counter := by
  unfold update_scores; split <;> rfl

lemma update_scores_dist (s : Bytestat) : (update_scores s).dist = s.dist := by
  unfold update_scores; split <;> rfl

lemma update_scores_interval (s : Bytestat) : (update_scores s).interval = s.interval := by
  unfold update_scores; split <;> rfl

lemma update_scores_score_counter (s : Bytestat) :
    (update_scores s).score_counter = s.counter := by
  unfold update_scores
  split
  · assumption
  · rfl

lemma update_scores_of_fresh (s : Bytestat) (h : s.score_counter = s.counter) :
    update_scores s = s := by
  unfold update_scores
  rw [if_pos h]

/-- Snapshot invariant maintained by every reachable state: the
snapshot counter never exceeds the live counter; a fresh snapshot at
counter 0 holds the zero-initialized scores; a fresh snapshot at a
nonzero counter holds exactly the recomputed scores of the current
accumulators. -/
def SnapOk (s : Bytestat) : Prop :=
  s.score_counter ≤ s.counter ∧
  (s.counter = 0 →
    s.score_non_zero = 0 ∧ s.score_unique = 0 ∧ s.score_amplitude = 0 ∧
    s.score_interval_continuity = 0 ∧ s.score_interval_amplitude = 0 ∧ s.score = 0) ∧
  (s.score_counter = s.counter → s.counter ≠ 0 →
    s.score_non_zero = computeNonZero s ∧ s.score_unique = computeUnique s ∧
    s.score_amplitude = computeAmplitude s ∧
    s.score_interval_continuity = computeContinuity s ∧
    s.score_interval_amplitude = computeIntervalAmplitude s ∧ s.score = computeScore s)

lemma snapOk_new : SnapOk new := by
  refine ⟨le_refl 0, fun _ => ?_, fun _ h => absurd rfl h⟩
  exact ⟨rfl, rfl, rfl, rfl, rfl, rfl⟩

lemma snapOk_analyze (s : Bytestat) (b : Fin 256) (h : SnapOk s) :
    SnapOk (analyze s b) := by
  obtain ⟨h1, _, _⟩ := h
  refine ⟨?_, ?_, ?_⟩
  · show s.score_counter ≤ s.counter + 1
    omega
  · intro hc
    exact absurd hc (Nat.succ_ne_zero s.counter)
  · intro hf _
    have : s.score_counter = s.counter + 1 := hf
    omega

lemma snapOk_update_scores (s : Bytestat) (h : SnapOk s) :
    SnapOk (update_scores s) := by
  unfold update_scores
  split
  · exact h
  · next hne =>
    have h1 := h.1
    refine ⟨le_refl s.counter, fun hc => ?_, fun _ _ => ⟨rfl, rfl, rfl, rfl, rfl, rfl⟩⟩
    have hc' : s.counter = 0 := hc
    exact absurd (by omega : s.score_counter = s.counter) hne

lemma snapOk_foldl (ops : List Op) :
    ∀ s : Bytestat, SnapOk s → SnapOk (ops.foldl applyOp s) := by
  induction ops with
  | nil => intro s h; exact h
  | cons op t ih =>
    intro s h
    rw [List.foldl_cons]
    refine ih _ ?_
    cases op with
    | ingest b => exact snapOk_analyze s b h
    | query => exact snapOk_update_scores s h

lemma snapOk_runOps (ops : List Op) : SnapOk (runOps ops) :=
  snapOk_foldl ops new snapOk_new

/-- On a state with nonzero counter satisfying the snapshot invariant,
every accessor returns exactly the recomputed scores of the current
accumulators (whether or not the snapshot was stale). -/
lemma get_eq_compute (s : Bytestat) (h : SnapOk s) (hc : s.counter ≠ 0) :
    get_score_non_zero s = computeNonZero s ∧
    get_score_unique s = computeUnique s ∧
    get_score_amplitude s = computeAmplitude s ∧
    get_score_interval_continuity s = computeContinuity s ∧
    get_score_interval_amplitude s = computeIntervalAmplitude s ∧
    get_score s = computeScore s := by
  unfold get_score_non_zero get_score_unique get_score_amplitude
    get_score_interval_continuity get_score_interval_amplitude get_score update_scores
  split
  · next hf => exact h.2.2 hf hc
  · exact ⟨rfl, rfl, rfl, rfl, rfl, rfl⟩

/-- On a state with counter 0 satisfying the snapshot invariant, every
accessor returns 0. -/
lemma get_eq_zero (s : Bytestat) (h : SnapOk s) (hc : s.counter = 0) :
    get_score_non_zero s = 0 ∧ get_score_unique s = 0 ∧ get_score_amplitude s = 0 ∧
    get_score_interval_continuity s = 0 ∧ get_score_interval_amplitude s = 0 ∧
    get_score s = 0 := by
  have hf : s.score_counter = s.counter := by
    have := h.1
    omega
  unfold get_score_non_zero get_score_unique get_score_amplitude
    get_score_interval_continuity get_score_interval_amplitude get_score
  rw [update_scores_of_fresh s hf]
  exact h.2.1 hc

/-! ## Counter, frequency table and last-seen lemmas -/

lemma counter_foldl_analyze (l : List (Fin 256)) :
    ∀ s : Bytestat, (l.foldl analyze s).counter = s.counter + l.length := by
  induction l with
  | nil => intro s; simp
  | cons a t ih =>
    intro s
    rw [List.foldl_cons, ih]
    show s.counter + 1 + t.length = s.counter + (t.length + 1)
    omega

lemma counter_runAnalyze (l : List (Fin 256)) : (runAnalyze l).counter = l.length := by
  rw [runAnalyze, counter_foldl_analyze]
  show 0 + l.length = l.length
  omega

lemma counter_applyOp_mono (s : Bytestat) (op : Op) : s.counter ≤ (applyOp s op).counter := by
  cases op with
  | ingest b => exact Nat.le_succ s.counter
  | query => rw [applyOp, update_scores_counter]

lemma counter_foldl_mono (ops : List Op) :
    ∀ s : Bytestat, s.counter ≤ (ops.foldl applyOp s).counter := by
  induction ops with
  | nil => intro s; exact le_refl _
  | cons op t ih =>
    intro s
    exact le_trans (counter_applyOp_mono s op) (ih (applyOp s op))

lemma counter_runOps_pos (ops : List Op) (b : Fin 256) (h : Op.ingest b ∈ ops) :
    0 < (runOps ops).counter := by
  rw [runOps]
  generalize new = s
  induction ops generalizing s with
  | nil => cases h
  | cons op t ih =>
    rw [List.foldl_cons]
    rcases List.mem_cons.mp h with heq | hmem
    · subst heq
      have h1 : 1 ≤ (applyOp s (Op.ingest b)).counter := Nat.succ_le_succ (Nat.zero_le _)
      exact lt_of_lt_of_le h1 (counter_foldl_mono t _)
    · exact ih hmem _

lemma sum_dist_analyze (s : Bytestat) (b : Fin 256) :
    ∑ x : Fin 256, (analyze s b).dist x = (∑ x : Fin 256, s.dist x) + 1 := by
  show ∑ x : Fin 256, Function.update s.dist b (s.dist b + 1) x = _
  rw [Finset.sum_update_of_mem (Finset.mem_univ b), Finset.sdiff_singleton_eq_erase]
  have h := Finset.add_sum_erase Finset.univ s.dist (Finset.mem_univ b)
  omega

lemma sum_dist_runOps (ops : List Op) :
    ∑ b : Fin 256, (runOps ops).dist b = (runOps ops).counter := by
  rw [runOps]
  have base : ∑ b : Fin 256, new.dist b = new.counter := by simp [new]
  generalize hs : new = s at base ⊢
  clear hs
  induction ops generalizing s with
  | nil => exact base
  | cons op t ih =>
    rw [List.foldl_cons]
    refine ih _ ?_
    cases op with
    | ingest b =>
      show ∑ x : Fin 256, (analyze s b).dist x = (analyze s b).counter
      rw [sum_dist_analyze, base]
      rfl
    | query =>
      show ∑ b : Fin 256, (update_scores s).dist b = (update_scores s).counter
      rw [update_scores_dist, update_scores_counter, base]

lemma dist_foldl_analyze (l : List (Fin 256)) :
    ∀ (s : Bytestat) (b : Fin 256), (l.foldl analyze s).dist b = s.dist b + l.count b := by
  induction l with
  | nil => intro s b; simp
  | cons a t ih =>
    intro s b
    rw [List.foldl_cons, ih]
    show Function.update s.dist a (s.dist a + 1) b + t.count b = s.dist b + (a :: t).count b
    rw [Function.update_apply, List.count_cons]
    simp only [beq_iff_eq]
    by_cases hba : b = a
    · subst hba
      rw [if_pos rfl, if_pos rfl]
      omega
    · rw [if_neg hba, if_neg (fun h => hba h.symm)]
      omega

lemma dist_runAnalyze (l : List (Fin 256)) (b : Fin 256) :
    (runAnalyze l).dist b = l.count b := by
  rw [runAnalyze, dist_foldl_analyze]
  show 0 + l.count b = l.count b
  omega

lemma last_le_counter_foldl (l : List (Fin 256)) :
    ∀ s : Bytestat, (∀ b, s.last b ≤ s.counter) →
      ∀ b, (l.foldl analyze s).last b ≤ (l.foldl analyze s).counter := by
  induction l with
  | nil => intro s h; exact h
  | cons a t ih =>
    intro s h
    refine ih _ ?_
    intro b
    show Function.update s.last a (s.counter + 1) b ≤ s.counter + 1
    rw [Function.update_apply]
    split
    · exact le_refl _
    · exact le_trans (h b) (Nat.le_succ _)

lemma last_le_counter (l : List (Fin 256)) (b : Fin 256) :
    (runAnalyze l).last b ≤ (runAnalyze l).counter :=
  last_le_counter_foldl l new (fun _ => le_refl 0) b

lemma last_foldl_not_mem (l : List (Fin 256)) :
    ∀ (s : Bytestat) (b : Fin 256), b ∉ l → (l.foldl analyze s).last b = s.last b := by
  induction l with
  | nil => intro s b _; rfl
  | cons a t ih =>
    intro s b hb
    rw [List.foldl_cons, ih _ _ (fun h => hb (List.mem_cons_of_mem a h))]
    show Function.update s.last a (s.counter + 1) b = s.last b
    rw [Function.update_apply,
      if_neg (fun h : b = a => hb (by rw [h]; exact List.mem_cons_self a t))]

/-- While fewer than 65536 bytes have been ingested, every stored gap
is its true value, at least 1: histogram entry 0 stays 0. -/
lemma interval0_of_short (l : List (Fin 256)) (h : l.length < 65536) :
    (runAnalyze l).interval 0 = 0 := by
  induction l using List.reverseRecOn with
  | nil => rfl
  | append_singleton t b ih =>
    have hlen : t.length + 1 < 65536 := by
      rw [List.length_append, List.length_singleton] at h
      omega
    have hle : (runAnalyze t).last b ≤ t.length := by
      have h2 := last_le_counter t b
      rwa [counter_runAnalyze] at h2
    have hstep : runAnalyze (t ++ [b]) = analyze (runAnalyze t) b := by
      rw [runAnalyze, runAnalyze, List.foldl_append, List.foldl_cons, List.foldl_nil]
    rw [hstep]
    show Function.update (runAnalyze t).interval
      (((runAnalyze t).counter + 1 - (runAnalyze t).last b) % 65536)
      ((runAnalyze t).interval
        (((runAnalyze t).counter + 1 - (runAnalyze t).last b) % 65536) + 1) 0 = 0
    rw [Function.update_apply, counter_runAnalyze]
    have hgap : (t.length + 1 - (runAnalyze t).last b) % 65536 ≠ 0 := by
      have h2 : t.length + 1 - (runAnalyze t).last b < 65536 := by omega
      rw [Nat.mod_eq_of_lt h2]
      omega
    rw [if_neg (fun heq : (0 : Nat) = _ => hgap heq.symm)]
    exact ih (by omega)

/-! ## Score bound helpers -/

lemma natCast_div_nonneg (a b : Nat) : 0 ≤ (a : ℚ) / (b : ℚ) :=
  div_nonneg (Nat.cast_nonneg a) (Nat.cast_nonneg b)

lemma natCast_div_le_one (a b : Nat) (h : a ≤ b) : (a : ℚ) / (b : ℚ) ≤ 1 := by
  rcases Nat.eq_zero_or_pos b with hb | hb
  · subst hb
    have ha : a = 0 := Nat.le_zero.mp h
    subst ha
    norm_num
  · rw [div_le_one (by exact_mod_cast hb)]
    exact_mod_cast h

lemma distNotZero_le (s : Bytestat) : distNotZero s ≤ 256 := by
  refine le_trans (Finset.card_filter_le _ _) ?_
  rw [Finset.card_univ, Fintype.card_fin]

lemma distUnique_le (s : Bytestat) : distUnique s ≤ 256 := by
  refine le_trans (Finset.card_filter_le _ _) (le_trans (Finset.card_image_le) ?_)
  rw [Finset.card_univ, Fintype.card_fin]

lemma distAmpMin_le_distAmpMax (s : Bytestat) : distAmpMin s ≤ distAmpMax s := by
  refine le_trans (Finset.inf'_le _ (Finset.mem_univ 0)) ?_
  exact Finset.le_sup (Finset.mem_univ 0)

lemma populatedLoop_pos (s : Bytestat) (imax : Nat) : 1 ≤ populatedLoop s imax := by
  rw [populatedLoop_eq]
  omega

lemma if_lt_512_eq_min (p : Nat) : (if p < 512 then p else 512) = min p 512 := by
  split <;> omega

lemma if_512_lt_eq_min (i : Nat) : (if 512 < i then 512 else i) = min i 512 := by
  split <;> omega

lemma computeNonZero_bounds (s : Bytestat) :
    0 ≤ computeNonZero s ∧ computeNonZero s ≤ 1 := by
  unfold computeNonZero
  have h256 : ((256 : Nat) : ℚ) = (256 : ℚ) := by norm_num
  refine ⟨?_, ?_⟩
  · rw [← h256]; exact natCast_div_nonneg _ _
  · rw [← h256]; exact natCast_div_le_one _ _ (distNotZero_le s)

lemma computeUnique_bounds (s : Bytestat) :
    0 ≤ computeUnique s ∧ computeUnique s ≤ 1 := by
  unfold computeUnique
  have h256 : ((256 : Nat) : ℚ) = (256 : ℚ) := by norm_num
  refine ⟨?_, ?_⟩
  · rw [← h256]; exact natCast_div_nonneg _ _
  · rw [← h256]; exact natCast_div_le_one _ _ (distUnique_le s)

lemma computeAmplitude_bounds (s : Bytestat) :
    0 ≤ computeAmplitude s ∧ computeAmplitude s ≤ 1 := by
  unfold computeAmplitude
  refine ⟨natCast_div_nonneg _ _, natCast_div_le_one _ _ ?_⟩
  omega

lemma computeContinuity_bounds (s : Bytestat) :
    0 ≤ computeContinuity s ∧ computeContinuity s ≤ 1 := by
  unfold computeContinuity
  have h512 : ((512 : Nat) : ℚ) = (512 : ℚ) := by norm_num
  refine ⟨?_, ?_⟩
  · rw [← h512]; exact natCast_div_nonneg _ _
  · rw [← h512]
    refine natCast_div_le_one _ _ ?_
    split <;> omega

lemma computeIntervalAmplitude_bounds (s : Bytestat) :
    0 ≤ computeIntervalAmplitude s ∧ computeIntervalAmplitude s ≤ 1 := by
  unfold computeIntervalAmplitude
  have h512 : ((512 : Nat) : ℚ) = (512 : ℚ) := by norm_num
  refine ⟨?_, ?_⟩
  · rw [← h512]; exact natCast_div_nonneg _ _
  · rw [← h512]
    refine natCast_div_le_one _ _ ?_
    split <;> omega

lemma computeContinuity_floor (s : Bytestat) : 1 / 512 ≤ computeContinuity s := by
  unfold computeContinuity
  have hp := populatedLoop_pos s (intervalLoop s).2
  have h1 : (1 : ℚ) ≤ ((if populatedLoop s (intervalLoop s).2 < 512
      then populatedLoop s (intervalLoop s).2 else 512 : Nat) : ℚ) := by
    have : 1 ≤ (if populatedLoop s (intervalLoop s).2 < 512
        then populatedLoop s (intervalLoop s).2 else 512 : Nat) := by
      split <;> omega
    exact_mod_cast this
  rw [div_le_div_iff₀ (by norm_num) (by norm_num)]
  linarith

lemma computeScore_eq_20_mul (s : Bytestat) :
    computeScore s = 20 * (computeNonZero s + computeUnique s + computeAmplitude s
      + computeContinuity s + computeIntervalAmplitude s) := by
  unfold computeScore
  ring

/-- Accessors on a stale state return the freshly recomputed scores. -/
lemma get_eq_compute_of_stale (s : Bytestat) (h : s.score_counter ≠ s.counter) :
    get_score_non_zero s = computeNonZero s ∧
    get_score_unique s = computeUnique s ∧
    get_score_amplitude s = computeAmplitude s ∧
    get_score_interval_continuity s = computeContinuity s ∧
    get_score_interval_amplitude s = computeIntervalAmplitude s ∧
    get_score s = computeScore s := by
  unfold get_score_non_zero get_score_unique get_score_amplitude
    get_score_interval_continuity get_score_interval_amplitude get_score update_scores
  rw [if_neg h]
  exact ⟨rfl, rfl, rfl, rfl, rfl, rfl⟩

/-- The `runAnalyze` fold is `runOps` restricted to ingestions. -/
lemma runAnalyze_eq_runOps (l : List (Fin 256)) :
    runAnalyze l = runOps (l.map Op.ingest) := by
  rw [runAnalyze, runOps]
  generalize new = s
  induction l generalizing s with
  | nil => rfl
  | cons a t ih =>
    rw [List.map_cons, List.foldl_cons, List.foldl_cons]
    exact ih (analyze s a)

lemma snapOk_runAnalyze (l : List (Fin 256)) : SnapOk (runAnalyze l) := by
  rw [runAnalyze_eq_runOps]
  exact snapOk_runOps _

lemma sum_dist_runAnalyze (l : List (Fin 256)) :
    ∑ b : Fin 256, (runAnalyze l).dist b = (runAnalyze l).counter := by
  rw [runAnalyze_eq_runOps]
  exact sum_dist_runOps _

/-- A state whose frequency table sums to a nonzero counter has a
strictly positive maximal frequency. -/
lemma distAmpMax_pos (s : Bytestat) (hsum : ∑ b : Fin 256, s.dist b = s.counter)
    (hc : s.counter ≠ 0) : 0 < distAmpMax s := by
  by_contra h0
  push_neg at h0
  have hall : ∀ b : Fin 256, s.dist b = 0 := by
    intro b
    have hle : s.dist b ≤ Finset.univ.sup (fun b : Fin 256 => s.dist b) :=
      Finset.le_sup (Finset.mem_univ b)
    have : s.dist b ≤ distAmpMax s := hle
    omega
  have : ∑ b : Fin 256, s.dist b = 0 := Finset.sum_eq_zero (fun b _ => hall b)
  omega

/-- The spec's `interval_max` bounds every significant gap length and,
when a significant gap exists, is itself significant. -/
lemma specIntervalMax_is_max (s : Bytestat) :
    (∀ x ∈ sigSet s, x ≤ specIntervalMax s) ∧
    ((sigSet s).Nonempty → specIntervalMax s ∈ sigSet s) := by
  constructor
  · intro x hx
    have : id x ≤ (sigSet s).sup id := Finset.le_sup hx
    exact this
  · intro hne
    have hmem := Finset.max'_mem (sigSet s) hne
    rwa [Finset.max'_eq_sup', Finset.sup'_eq_sup] at hmem

end Bytestat

open Bytestat

/-! ## Claim theorems -/

/-- C5: a single `analyze(b)` call increments the sample counter by
exactly 1, increments the frequency entry of `b` leaving the other 255
entries unchanged, increments the single histogram entry at index
`(new counter - last[b]) mod 65536` leaving all other entries
unchanged, sets `last[b]` to the new counter leaving the other
last-seen entries unchanged, and does not modify any snapshot field. -/
theorem C5_analyze_frame (s : Bytestat) (b : Fin 256) :
    (analyze s b).counter = s.counter + 1 ∧
    (analyze s b).dist b = s.dist b + 1 ∧
    (∀ b' : Fin 256, b' ≠ b → (analyze s b).dist b' = s.dist b') ∧
    (analyze s b).interval ((s.counter + 1 - s.last b) % 65536)
      = s.interval ((s.counter + 1 - s.last b) % 65536) + 1 ∧
    (∀ g : Nat, g ≠ (s.counter + 1 - s.last b) % 65536 →
      (analyze s b).interval g = s.interval g) ∧
    (analyze s b).last b = s.counter + 1 ∧
    (∀ b' : Fin 256, b' ≠ b → (analyze s b).last b' = s.last b') ∧
    (analyze s b).score_counter = s.score_counter ∧
    (analyze s b).score_non_zero = s.score_non_zero ∧
    (analyze s b).score_unique = s.score_unique ∧
    (analyze s b).score_amplitude = s.score_amplitude ∧
    (analyze s b).score_interval_continuity = s.score_interval_continuity ∧
    (analyze s b).score_interval_amplitude = s.score_interval_amplitude ∧
    (analyze s b).score = s.score := by
  refine ⟨rfl, ?_, ?_, ?_, ?_, ?_, ?_, rfl, rfl, rfl, rfl, rfl, rfl, rfl⟩
  · exact Function.update_same b (s.dist b + 1) s.dist
  · intro b' hb'
    exact Function.update_noteq hb' (s.dist b + 1) s.dist
  · exact Function.update_same _ _ s.interval
  · intro g hg
    exact Function.update_noteq hg _ s.interval
  · exact Function.update_same b (s.counter + 1) s.last
  · intro b' hb'
    exact Function.update_noteq hb' (s.counter + 1) s.last

theorem C5_analyze_frame_witness :
    (analyze Bytestat.new 3).counter = 1 ∧
    (analyze Bytestat.new 3).dist 3 = 1 ∧
    (analyze Bytestat.new 3).dist 7 = Bytestat.new.dist 7 ∧
    (analyze Bytestat.new 3).interval 2 = Bytestat.new.interval 2 ∧
    (analyze Bytestat.new 3).last 7 = Bytestat.new.last 7 :=
  ⟨(C5_analyze_frame Bytestat.new 3).1,
   (C5_analyze_frame Bytestat.new 3).2.1,
   (C5_analyze_frame Bytestat.new 3).2.2.1 7 (by decide),
   (C5_analyze_frame Bytestat.new 3).2.2.2.2.1 2 (by decide),
   (C5_analyze_frame Bytestat.new 3).2.2.2.2.2.2.1 7 (by decide)⟩

/-- C6: the engine is Fresh iff the snapshot counter equals the live
counter.  `analyze` turns a Fresh engine Stale; an accessor on a Fresh
engine leaves the state untouched; an accessor always leaves the
engine Fresh; the first accessor after an `analyze` returns the scores
recomputed from the post-`analyze` accumulators; and accessor calls
are idempotent, so two accessor calls with no intervening `analyze`
return identical values. -/
theorem C6_fresh_stale :
    (∀ (s : Bytestat) (b : Fin 256), Fresh s → ¬ Fresh (analyze s b)) ∧
    (∀ s : Bytestat, Fresh s → update_scores s = s) ∧
    (∀ s : Bytestat, Fresh (update_scores s)) ∧
    (∀ (s : Bytestat) (b : Fin 256), s.score_counter ≤ s.counter →
      get_score_non_zero (analyze s b) = computeNonZero (analyze s b) ∧
      get_score_unique (analyze s b) = computeUnique (analyze s b) ∧
      get_score_amplitude (analyze s b) = computeAmplitude (analyze s b) ∧
      get_score_interval_continuity (analyze s b) = computeContinuity (analyze s b) ∧
      get_score_interval_amplitude (analyze s b) = computeIntervalAmplitude (analyze s b) ∧
      get_score (analyze s b) = computeScore (analyze s b)) ∧
    (∀ s : Bytestat, update_scores (update_scores s) = update_scores s) := by
  refine ⟨?_, ?_, ?_, ?_, ?_⟩
  · intro s b hf
    have h1 : s.score_counter = s.counter := hf
    intro hcon
    have h2 : s.score_counter = s.counter + 1 := hcon
    omega
  · intro s hf
    exact update_scores_of_fresh s hf
  · intro s
    show (update_scores s).score_counter = (update_scores s).counter
    rw [update_scores_score_counter, update_scores_counter]
  · intro s b hle
    refine get_eq_compute_of_stale (analyze s b) ?_
    show ¬ s.score_counter = s.counter + 1
    omega
  · intro s
    exact update_scores_of_fresh _ (by
      show (update_scores s).score_counter = (update_scores s).counter
      rw [update_scores_score_counter, update_scores_counter])

theorem C6_fresh_stale_witness :
    (¬ Fresh (analyze Bytestat.new 5)) ∧
    update_scores Bytestat.new = Bytestat.new ∧
    get_score (analyze Bytestat.new 5) = computeScore (analyze Bytestat.new 5) :=
  ⟨C6_fresh_stale.1 Bytestat.new 5 rfl,
   C6_fresh_stale.2.1 Bytestat.new rfl,
   (C6_fresh_stale.2.2.2.1 Bytestat.new 5 (Nat.le_refl 0)).2.2.2.2.2⟩

/-- C8: after any sequence of `analyze` calls on a fresh engine, the
256 frequency-table entries sum to the sample counter. -/
theorem C8_dist_sum_eq_counter (l : List (Fin 256)) :
    ∑ b : Fin 256, (runAnalyze l).dist b = (runAnalyze l).counter :=
  sum_dist_runAnalyze l

/-- C2: the engine's operations are total.  On a freshly constructed
engine every score accessor (and the array accessor) returns 0 rather
than an undefined value, because the memoization guard short-circuits
the amplitude division; and in every reachable state whose counter is
nonzero the divisor `dist_amp_max` of the amplitude score is strictly
positive, so the `0.0/0.0` case is never exercised there. -/
theorem C2_total_accessors :
    (get_score_non_zero Bytestat.new = 0 ∧
     get_score_unique Bytestat.new = 0 ∧
     get_score_amplitude Bytestat.new = 0 ∧
     get_score_interval_continuity Bytestat.new = 0 ∧
     get_score_interval_amplitude Bytestat.new = 0 ∧
     get_score Bytestat.new = 0 ∧
     get_scores_array Bytestat.new = [0, 0, 0, 0, 0, 0]) ∧
    (∀ ops : List Op, (runOps ops).counter ≠ 0 → 0 < distAmpMax (runOps ops)) := by
  constructor
  · have h := get_eq_zero Bytestat.new snapOk_new rfl
    obtain ⟨h1, h2, h3, h4, h5, h6⟩ := h
    refine ⟨h1, h2, h3, h4, h5, h6, ?_⟩
    rw [get_scores_array, h1, h2, h3, h4, h5, h6]
  · intro ops hc
    exact distAmpMax_pos (runOps ops) (sum_dist_runOps ops) hc

theorem C2_total_accessors_witness :
    (runOps [Op.ingest 5]).counter ≠ 0 ∧ 0 < distAmpMax (runOps [Op.ingest 5]) :=
  ⟨by decide, C2_total_accessors.2 [Op.ingest 5] (by decide)⟩


/-- C7: in every reachable state each of the five sub-score accessors
returns a value in [0,1], and the composite accessor returns 20 times
the sum of the five sub-scores, a value in [0,100]. -/
theorem C7_score_ranges (ops : List Op) :
    (0 ≤ get_score_non_zero (runOps ops) ∧ get_score_non_zero (runOps ops) ≤ 1) ∧
    (0 ≤ get_score_unique (runOps ops) ∧ get_score_unique (runOps ops) ≤ 1) ∧
    (0 ≤ get_score_amplitude (runOps ops) ∧ get_score_amplitude (runOps ops) ≤ 1) ∧
    (0 ≤ get_score_interval_continuity (runOps ops) ∧
      get_score_interval_continuity (runOps ops) ≤ 1) ∧
    (0 ≤ get_score_interval_amplitude (runOps ops) ∧
      get_score_interval_amplitude (runOps ops) ≤ 1) ∧
    get_score (runOps ops)
      = 20 * (get_score_non_zero (runOps ops) + get_score_unique (runOps ops)
        + get_score_amplitude (runOps ops) + get_score_interval_continuity (runOps ops)
        + get_score_interval_amplitude (runOps ops)) ∧
    (0 ≤ get_score (runOps ops) ∧ get_score (runOps ops) ≤ 100) := by
  have hok := snapOk_runOps ops
  by_cases hc : (runOps ops).counter = 0
  · obtain ⟨h1, h2, h3, h4, h5, h6⟩ := get_eq_zero (runOps ops) hok hc
    rw [h1, h2, h3, h4, h5, h6]
    norm_num
  · obtain ⟨h1, h2, h3, h4, h5, h6⟩ := get_eq_compute (runOps ops) hok hc
    rw [h1, h2, h3, h4, h5, h6]
    have b1 := computeNonZero_bounds (runOps ops)
    have b2 := computeUnique_bounds (runOps ops)
    have b3 := computeAmplitude_bounds (runOps ops)
    have b4 := computeContinuity_bounds (runOps ops)
    have b5 := computeIntervalAmplitude_bounds (runOps ops)
    have hs := computeScore_eq_20_mul (runOps ops)
    refine ⟨b1, b2, b3, b4, b5, hs, ?_, ?_⟩
    · rw [hs]; linarith [b1.1, b2.1, b3.1, b4.1, b5.1]
    · rw [hs]; linarith [b1.2, b2.2, b3.2, b4.2, b5.2]

/-- C10: in every reachable state with at least one ingested byte the
interval continuity accessor returns at least 1/512, because
`populated` starts at 1; and whenever no histogram bucket is
significant, the recomputed continuity score is exactly 1/512 while
the recomputed interval amplitude score is 0. -/
theorem C10_continuity_floor :
    (∀ ops : List Op, (runOps ops).counter ≠ 0 →
      1 / 512 ≤ get_score_interval_continuity (runOps ops)) ∧
    (∀ s : Bytestat, sigSet s = ∅ →
      computeContinuity s = 1 / 512 ∧ computeIntervalAmplitude s = 0) := by
  constructor
  · intro ops hc
    have h := (get_eq_compute (runOps ops) (snapOk_runOps ops) hc).2.2.2.1
    rw [h]
    exact computeContinuity_floor (runOps ops)
  · intro s hempty
    have hmax : (intervalLoop s).2 = 0 := by
      rw [intervalLoop_snd, specIntervalMax, hempty]
      rfl
    have hpop : populatedLoop s (intervalLoop s).2 = 1 := by
      rw [hmax]
      rfl
    constructor
    · unfold computeContinuity
      rw [hpop]
      norm_num
    · unfold computeIntervalAmplitude
      rw [hmax]
      norm_num

theorem C10_continuity_floor_witness :
    ((runOps [Op.ingest 5]).counter ≠ 0 ∧
      1 / 512 ≤ get_score_interval_continuity (runOps [Op.ingest 5])) ∧
    (sigSet Bytestat.new = ∅ ∧ computeContinuity Bytestat.new = 1 / 512 ∧
      computeIntervalAmplitude Bytestat.new = 0) := by
  have hempty : sigSet Bytestat.new = ∅ :=
    Finset.filter_eq_empty_iff.mpr (fun x _ => by simp [Bytestat.new])
  exact ⟨⟨by decide, C10_continuity_floor.1 [Op.ingest 5] (by decide)⟩,
    ⟨hempty, C10_continuity_floor.2 Bytestat.new hempty⟩⟩

/-- C4: in every reachable state with at least one ingested byte, the
interval scores the accessors return satisfy the spec's reference
definitions: a gap length in 1..65535 is significant iff its count
strictly exceeds `counter / 4096` (truncating division); `interval_max`
is the largest significant gap length (an upper bound of the
significant set, and a member when the set is nonempty); `populated`
is 1 plus the number of significant gap lengths in `1..interval_max`;
the continuity score is `min(populated, 512) / 512` and the interval
amplitude score is `min(interval_max, 512) / 512`. -/
theorem C4_interval_spec_refinement (ops : List Op) (hc : (runOps ops).counter ≠ 0) :
    get_score_interval_continuity (runOps ops)
      = ((min (specPopulated (runOps ops)) 512 : Nat) : ℚ) / 512 ∧
    get_score_interval_amplitude (runOps ops)
      = ((min (specIntervalMax (runOps ops)) 512 : Nat) : ℚ) / 512 ∧
    (∀ x : Nat, x ∈ sigSet (runOps ops) ↔
      1 ≤ x ∧ x < 65536 ∧ (runOps ops).counter / 4096 < (runOps ops).interval x) ∧
    (∀ x ∈ sigSet (runOps ops), x ≤ specIntervalMax (runOps ops)) ∧
    ((sigSet (runOps ops)).Nonempty →
      specIntervalMax (runOps ops) ∈ sigSet (runOps ops)) ∧
    specPopulated (runOps ops)
      = 1 + ((Finset.Ico 1 (specIntervalMax (runOps ops))).filter
          (fun x => (runOps ops).counter / 4096 < (runOps ops).interval x)).card := by
  obtain ⟨-, -, -, h4, h5, -⟩ := get_eq_compute (runOps ops) (snapOk_runOps ops) hc
  refine ⟨?_, ?_, ?_, (specIntervalMax_is_max (runOps ops)).1,
    (specIntervalMax_is_max (runOps ops)).2, rfl⟩
  · rw [h4]
    unfold computeContinuity
    rw [populatedLoop_spec, if_lt_512_eq_min]
  · rw [h5]
    unfold computeIntervalAmplitude
    rw [intervalLoop_snd, if_512_lt_eq_min]
  · intro x
    rw [sigSet, Finset.mem_filter, Finset.mem_Ico, and_assoc]

theorem C4_interval_spec_refinement_witness :
    (runOps [Op.ingest 5]).counter ≠ 0 ∧
    get_score_interval_continuity (runOps [Op.ingest 5])
      = ((min (specPopulated (runOps [Op.ingest 5])) 512 : Nat) : ℚ) / 512 :=
  ⟨by decide, (C4_interval_spec_refinement [Op.ingest 5] (by decide)).1⟩

/-- The significant set after ingesting 0,0,1,1: gaps 1 (three times)
and 3 (once) were recorded, counter/4096 = 0, so both are significant. -/
lemma sigSet_0011 : sigSet (runAnalyze [0, 0, 1, 1]) = {1, 3} := by
  ext x
  simp only [sigSet, Finset.mem_filter, Finset.mem_Ico, Finset.mem_insert,
    Finset.mem_singleton, runAnalyze, List.foldl, analyze, new, Function.update_apply]
  norm_num
  by_cases h1 : x = 1 <;> by_cases h3 : x = 3 <;> simp [h1, h3]

/-- The significant set after ingesting 0,1,0,1: gaps 1 (once) and 2
(three times) were recorded. -/
lemma sigSet_0101 : sigSet (runAnalyze [0, 1, 0, 1]) = {1, 2} := by
  ext x
  simp only [sigSet, Finset.mem_filter, Finset.mem_Ico, Finset.mem_insert,
    Finset.mem_singleton, runAnalyze, List.foldl, analyze, new, Function.update_apply]
  norm_num
  by_cases h1 : x = 1 <;> by_cases h2 : x = 2 <;> simp [h1, h2]

/-- C9: the coverage, uniqueness and amplitude scores are invariant
under permutation of the ingested stream (they depend only on the
frequency table, which depends only on the multiset of bytes), while
the interval-derived scores are order sensitive: the permuted streams
0,0,1,1 and 0,1,0,1 yield different interval amplitude scores. -/
theorem C9_order_sensitivity :
    (∀ l l' : List (Fin 256), l.Perm l' →
      get_score_non_zero (runAnalyze l) = get_score_non_zero (runAnalyze l') ∧
      get_score_unique (runAnalyze l) = get_score_unique (runAnalyze l') ∧
      get_score_amplitude (runAnalyze l) = get_score_amplitude (runAnalyze l')) ∧
    (([0, 0, 1, 1] : List (Fin 256)).Perm [0, 1, 0, 1] ∧
      get_score_interval_amplitude (runAnalyze [0, 0, 1, 1])
        ≠ get_score_interval_amplitude (runAnalyze [0, 1, 0, 1])) := by
  constructor
  · intro l l' hperm
    have hdist : (runAnalyze l).dist = (runAnalyze l').dist := by
      funext b
      rw [dist_runAnalyze, dist_runAnalyze, hperm.count_eq]
    have hcnt : (runAnalyze l).counter = (runAnalyze l').counter := by
      rw [counter_runAnalyze, counter_runAnalyze, hperm.length_eq]
    by_cases hc : (runAnalyze l).counter = 0
    · have hc' : (runAnalyze l').counter = 0 := by omega
      obtain ⟨z1, z2, z3, -, -, -⟩ := get_eq_zero (runAnalyze l) (snapOk_runAnalyze l) hc
      obtain ⟨w1, w2, w3, -, -, -⟩ := get_eq_zero (runAnalyze l') (snapOk_runAnalyze l') hc'
      rw [z1, z2, z3, w1, w2, w3]
      exact ⟨rfl, rfl, rfl⟩
    · have hc' : (runAnalyze l').counter ≠ 0 := by omega
      obtain ⟨z1, z2, z3, -, -, -⟩ :=
        get_eq_compute (runAnalyze l) (snapOk_runAnalyze l) hc
      obtain ⟨w1, w2, w3, -, -, -⟩ :=
        get_eq_compute (runAnalyze l') (snapOk_runAnalyze l') hc'
      rw [z1, z2, z3, w1, w2, w3]
      refine ⟨?_, ?_, ?_⟩
      · unfold computeNonZero distNotZero
        rw [hdist]
      · unfold computeUnique distUnique
        rw [hdist]
      · unfold computeAmplitude distAmpMax distAmpMin
        rw [hdist]
  · refine ⟨by decide, ?_⟩
    have hc1 : (runAnalyze [0, 0, 1, 1]).counter ≠ 0 := by
      rw [counter_runAnalyze]
      norm_num
    have hc2 : (runAnalyze [0, 1, 0, 1]).counter ≠ 0 := by
      rw [counter_runAnalyze]
      norm_num
    have h1 := (get_eq_compute _ (snapOk_runAnalyze [0, 0, 1, 1]) hc1).2.2.2.2.1
    have h2 := (get_eq_compute _ (snapOk_runAnalyze [0, 1, 0, 1]) hc2).2.2.2.2.1
    rw [h1, h2]
    unfold computeIntervalAmplitude
    rw [intervalLoop_snd, intervalLoop_snd, specIntervalMax, specIntervalMax,
      sigSet_0011, sigSet_0101]
    norm_num

theorem C9_order_sensitivity_witness :
    (([2, 3] : List (Fin 256)).Perm [3, 2]) ∧
    get_score_non_zero (runAnalyze [2, 3]) = get_score_non_zero (runAnalyze [3, 2]) :=
  ⟨by decide, (C9_order_sensitivity.1 [2, 3] [3, 2] (by decide)).1⟩

/-- After `analyze(5)` the only recorded gap is 1 and counter/4096 = 0,
so gap length 1 is the only significant one. -/
lemma sigSet_single5 : sigSet (runAnalyze [5]) = {1} := by
  ext x
  simp only [sigSet, Finset.mem_filter, Finset.mem_Ico, Finset.mem_singleton,
    runAnalyze, List.foldl, analyze, new, Function.update_apply]
  norm_num
  by_cases h1 : x = 1 <;> simp [h1]

set_option maxRecDepth 400000 in
lemma distNotZero_single5 : distNotZero (runAnalyze [5]) = 1 := by decide

set_option maxRecDepth 400000 in
lemma distUnique_single5 : distUnique (runAnalyze [5]) = 1 := by decide

set_option maxRecDepth 400000 in
lemma distAmpMin_single5 : distAmpMin (runAnalyze [5]) = 0 := by decide

set_option maxRecDepth 400000 in
lemma distAmpMax_single5 : distAmpMax (runAnalyze [5]) = 1 := by decide

/-- C3: on a fresh engine after exactly one `analyze(5)` call the
accessors return coverage 1/256, uniqueness 1/256, amplitude 0,
interval continuity 1/512, interval amplitude 1/512, and composite
score 0.234375. -/
theorem C3_single_sample :
    get_score_non_zero (runAnalyze [5]) = 1 / 256 ∧
    get_score_unique (runAnalyze [5]) = 1 / 256 ∧
    get_score_amplitude (runAnalyze [5]) = 0 ∧
    get_score_interval_continuity (runAnalyze [5]) = 1 / 512 ∧
    get_score_interval_amplitude (runAnalyze [5]) = 1 / 512 ∧
    get_score (runAnalyze [5]) = 0.234375 := by
  have hc : (runAnalyze [5]).counter ≠ 0 := by
    rw [counter_runAnalyze]
    norm_num
  obtain ⟨h1, h2, h3, h4, h5, h6⟩ := get_eq_compute _ (snapOk_runAnalyze [5]) hc
  have hmax : (intervalLoop (runAnalyze [5])).2 = 1 := by
    rw [intervalLoop_snd, specIntervalMax, sigSet_single5]
    simp
  have e1 : computeNonZero (runAnalyze [5]) = 1 / 256 := by
    unfold computeNonZero
    rw [distNotZero_single5]
    norm_num
  have e2 : computeUnique (runAnalyze [5]) = 1 / 256 := by
    unfold computeUnique
    rw [distUnique_single5]
    norm_num
  have e3 : computeAmplitude (runAnalyze [5]) = 0 := by
    unfold computeAmplitude
    rw [distAmpMax_single5, distAmpMin_single5]
    norm_num
  have e4 : computeContinuity (runAnalyze [5]) = 1 / 512 := by
    unfold computeContinuity
    rw [hmax]
    have hp : populatedLoop (runAnalyze [5]) 1 = 1 := rfl
    rw [hp]
    norm_num
  have e5 : computeIntervalAmplitude (runAnalyze [5]) = 1 / 512 := by
    unfold computeIntervalAmplitude
    rw [hmax]
    norm_num
  refine ⟨by rw [h1, e1], by rw [h2, e2], by rw [h3, e3], by rw [h4, e4],
    by rw [h5, e5], ?_⟩
  rw [h6]
  unfold computeScore
  rw [e1, e2, e3, e4, e5]
  norm_num

/-- Pointwise description of the histogram written by `analyze`. -/
lemma analyze_interval_apply (s : Bytestat) (b : Fin 256) (g : Nat) :
    (analyze s b).interval g
      = Function.update s.interval ((s.counter + 1 - s.last b) % 65536)
          (s.interval ((s.counter + 1 - s.last b) % 65536) + 1) g :=
  rfl

/-- C1 counterexample: after 65535 ingestions of byte 0 followed by one
ingestion of byte 1, the gap recorded for byte 1 is
`(65536 - 0) mod 65536 = 0`, so the histogram entry at index 0 is
incremented to 1 — the claim that it remains 0 for every sequence of
`analyze` calls is false at this input. -/
theorem C1_counterexample :
    (runAnalyze (List.replicate 65535 (0 : Fin 256) ++ [1])).interval 0 = 1 ∧
    (runAnalyze (List.replicate 65535 (0 : Fin 256) ++ [1])).interval 0 ≠ 0 := by
  have hlen : (List.replicate 65535 (0 : Fin 256)).length = 65535 :=
    List.length_replicate 65535 0
  have hcnt : (runAnalyze (List.replicate 65535 (0 : Fin 256))).counter = 65535 := by
    rw [counter_runAnalyze, hlen]
  have hlast : (runAnalyze (List.replicate 65535 (0 : Fin 256))).last 1 = 0 := by
    rw [runAnalyze, last_foldl_not_mem]
    · rfl
    · intro hmem
      have h10 : (1 : Fin 256) = 0 := (List.mem_replicate.mp hmem).2
      exact absurd h10 (by decide)
  have hint0 : (runAnalyze (List.replicate 65535 (0 : Fin 256))).interval 0 = 0 :=
    interval0_of_short _ (by rw [hlen]; norm_num)
  have hstep : runAnalyze (List.replicate 65535 (0 : Fin 256) ++ [1])
      = analyze (runAnalyze (List.replicate 65535 (0 : Fin 256))) 1 := by
    rw [runAnalyze, runAnalyze, List.foldl_append, List.foldl_cons, List.foldl_nil]
  have h1 : (runAnalyze (List.replicate 65535 (0 : Fin 256) ++ [1])).interval 0 = 1 := by
    rw [hstep, analyze_interval_apply, hcnt, hlast]
    have hk : (65535 + 1 - 0) % 65536 = 0 := by norm_num
    rw [hk, Function.update_same, hint0]
  exact ⟨h1, by rw [h1]; norm_num⟩

/-- C1 amended: histogram entry 0 is unused as long as fewer than
65536 bytes have been ingested — every true gap is at least 1 and a
stored gap of 0 requires a true gap that is a positive multiple of
65536, impossible before the counter reaches 65536. -/
theorem C1_amended_interval0 (l : List (Fin 256)) (h : l.length < 65536) :
    (runAnalyze l).interval 0 = 0 :=
  interval0_of_short l h

theorem C1_amended_interval0_witness :
    ([5] : List (Fin 256)).length < 65536 ∧ (runAnalyze [5]).interval 0 = 0 :=
  ⟨by norm_num, C1_amended_interval0 [5] (by norm_num)⟩
